import Mathlib

/-!
# Verification of the dmc-nav core

Shallow embedding of the navigation/viewport core of the `dmc-nav` terminal
file browser, together with proofs and refutations of its specification
claims.

Conventions:
* Go `int` values (cursors, offsets) are modelled as unbounded `Int`; all
  values involved stay far below 2^63, so wrap-around never occurs.
* Pane heights come from terminal extents and are modelled as `Nat`.
* Go strings are compared byte-wise; on the ASCII data appearing here this
  agrees with code-point-wise comparison of `List Char`, which is how string
  order is modelled (core `String.<` does not reduce in the kernel).
-/

set_option linter.unusedVariables false

/-! ## Viewport controller (nav.go) -/

/-- Cursor/offset pair of a list viewport (`NavPane.cursor` / `NavPane.offset`
in nav.go, `JSONViewer.cursor` / `JSONViewer.offset` in the JSON viewer). -/
structure Viewport where
  cursor : Int
  offset : Int
deriving DecidableEq, Repr

/-- Effective visible height used by `NavPane.adjustOffset` (nav.go:213-216):
`visibleHeight := n.height - 2`, clamped below by 1. -/
def navVisibleHeight (height : Nat) : Int :=
  max 1 ((height : Int) - 2)

/-- `NavPane.adjustOffset` (nav.go:212-226): scroll up if the cursor is above
the viewport, then scroll down if it is below; the two checks run in this
order against the already-updated offset. -/
def navAdjustOffset (height : Nat) (v : Viewport) : Viewport :=
  let vh := navVisibleHeight height
  let o1 := if v.cursor < v.offset then v.cursor else v.offset
  let o2 := if v.cursor ≥ o1 + vh then v.cursor - vh + 1 else o1
  ⟨v.cursor, o2⟩

/-- `NavPane.moveCursor` (nav.go:201-210); `total` is `len(n.entries)`.
Note the clamp order: first `cursor < 0` is raised to 0, then `cursor >=
len(entries)` is lowered to `len(entries)-1`; on an empty list this leaves
the cursor at `-1`. -/
def navMoveCursor (total : Nat) (height : Nat) (v : Viewport) (delta : Int) : Viewport :=
  let c1 := v.cursor + delta
  let c2 := if c1 < 0 then 0 else c1
  let c3 := if c2 ≥ (total : Int) then (total : Int) - 1 else c2
  navAdjustOffset height ⟨c3, v.offset⟩

/-- Cursor operations of `NavPane.Update` (nav.go:54-69): `j`/`k` and the
half-page keys are `move` with the corresponding delta, `g` jumps to the top
resetting the offset, `G` jumps to the last entry and re-adjusts. -/
inductive NavOp where
  | move (delta : Int)
  | jumpTop
  | jumpBottom
deriving DecidableEq, Repr

/-- One keyboard step of the nav viewport (nav.go:54-69). -/
def navStep (total : Nat) (height : Nat) (v : Viewport) : NavOp → Viewport
  | .move d => navMoveCursor total height v d
  | .jumpTop => ⟨0, 0⟩
  | .jumpBottom => navAdjustOffset height ⟨(total : Int) - 1, v.offset⟩

/-- The viewport invariant claimed by the spec for `totalCount > 0`:
the offset is within the dead-scroll bound and the cursor is inside the
viewport and inside the list. -/
def navInv (total : Nat) (height : Nat) (v : Viewport) : Prop :=
  0 ≤ v.offset ∧ v.offset ≤ max 0 ((total : Int) - navVisibleHeight height) ∧
    v.offset ≤ v.cursor ∧ v.cursor < v.offset + navVisibleHeight height ∧
    0 ≤ v.cursor ∧ v.cursor < (total : Int)

instance (total height : Nat) (v : Viewport) : Decidable (navInv total height v) := by
  unfold navInv; infer_instance

theorem navStep_preserves_inv (total height : Nat) (v : Viewport) (op : NavOp)
    (htot : 0 < total) (hv : navInv total height v) :
    navInv total height (navStep total height v op) := by
  obtain ⟨c, o⟩ := v
  obtain ⟨h1, h2, h3, h4, h5, h6⟩ := hv
  simp only [navVisibleHeight] at h1 h2 h3 h4 h5 h6
  cases op <;>
    simp only [navStep, navMoveCursor, navAdjustOffset, navInv, navVisibleHeight] <;>
    (try split_ifs) <;>
    refine ⟨by omega, by omega, by omega, by omega, by omega, by omega⟩

/-- C1 (amended): starting from the initial viewport (cursor 0, offset 0) —
or from any state satisfying the invariant — every sequence of cursor
operations (arbitrary-delta moves, which subsume half-page moves, plus the
top/bottom jumps) preserves the viewport invariant, provided the list is
non-empty: `offset ≤ cursor < offset + viewHeight`,
`0 ≤ offset ≤ max 0 (total - viewHeight)` and `0 ≤ cursor < total`.
For `total = 0` the invariant fails: see the counterexample. -/
theorem nav_viewport_invariant (total height : Nat) (ops : List NavOp)
    (htot : 0 < total) :
    navInv total height ⟨0, 0⟩ ∧
      ∀ v, navInv total height v →
        navInv total height (ops.foldl (navStep total height) v) := by
  constructor
  · simp only [navInv, navVisibleHeight]
    refine ⟨by omega, by omega, by omega, by omega, by omega, by omega⟩
  · intro v hv
    induction ops generalizing v with
    | nil => exact hv
    | cons op ops ih =>
      exact ih _ (navStep_preserves_inv total height v op htot hv)

/-- Concrete run of `nav_viewport_invariant`: three moves and a jump on a
3-element list under pane height 5 keep the invariant. -/
theorem nav_viewport_invariant_witness :
    navInv 3 5 (List.foldl (navStep 3 5) ⟨0, 0⟩
      [NavOp.move 2, NavOp.jumpBottom, NavOp.move (-1), NavOp.jumpTop]) :=
  (nav_viewport_invariant 3 5 [NavOp.move 2, NavOp.jumpBottom, NavOp.move (-1),
      NavOp.jumpTop] (by decide)).2 ⟨0, 0⟩
    ((nav_viewport_invariant 3 5 [] (by decide)).1)

/-- C1 counterexample: on an empty list (`totalCount = 0`) a single
`MoveBy(1)` from the initial state leaves `cursor = -1` (not clamped to 0 as
claimed) and drags `offset` to `-1`, violating `0 ≤ offset`. -/
theorem nav_empty_cursor_counterexample :
    navStep 0 10 ⟨0, 0⟩ (NavOp.move 1) = ⟨-1, -1⟩ ∧
      (navStep 0 10 ⟨0, 0⟩ (NavOp.move 1)).cursor ≠ 0 ∧
      (navStep 0 10 ⟨0, 0⟩ (NavOp.move 1)).offset < 0 := by
  decide

/-! ## JSON viewer half-page movement (part_001) -/

/-- `JSONViewer.ensureVisible` (part_001:242-250): same minimal-shift rule,
with `viewHeight = height - 2` and no lower clamp on the height. -/
def jsonEnsureVisible (height : Nat) (v : Viewport) : Viewport :=
  let vh : Int := (height : Int) - 2
  let o1 := if v.cursor < v.offset then v.cursor else v.offset
  let o2 := if v.cursor ≥ o1 + vh then v.cursor - vh + 1 else o1
  ⟨v.cursor, o2⟩

/-- The `d`/`ctrl+d` branch of `JSONViewer.Update` (part_001:86-91); `total`
is `len(visible)`.  The delta is `j.height / 2` — half the full pane height,
not half the visible height. -/
def jsonHalfPageDown (height total : Nat) (v : Viewport) : Viewport :=
  let c1 := v.cursor + (height / 2 : Nat)
  let c2 := if c1 ≥ (total : Int) then (total : Int) - 1 else c1
  jsonEnsureVisible height ⟨c2, v.offset⟩

/-- The `u`/`ctrl+u` branch of `JSONViewer.Update` (part_001:92-97). -/
def jsonHalfPageUp (height : Nat) (v : Viewport) : Viewport :=
  let c1 := v.cursor - (height / 2 : Nat)
  let c2 := if c1 < 0 then 0 else c1
  jsonEnsureVisible height ⟨c2, v.offset⟩

/-- Follows the spec's words (§4.1 `MoveBy`): clamp the cursor to
`[0, total-1]`, then shift the offset minimally (up if the cursor is above
the viewport, down if it is at or below the bottom edge).  Stated over the
visible height `viewHeight` directly, for comparison with the code. -/
def specMoveBy (viewHeight : Nat) (total : Nat) (v : Viewport) (delta : Int) : Viewport :=
  let c := min (max (v.cursor + delta) 0) ((total : Int) - 1)
  let o1 := if c < v.offset then c else v.offset
  let o2 := if c ≥ o1 + (viewHeight : Int) then c - (viewHeight : Int) + 1 else o1
  ⟨c, o2⟩

/-- Follows the spec's words (§4.1): `HalfPageDown` is `MoveBy` with
`delta = ⌈viewHeight/2⌉`. -/
def specHalfPageDown (viewHeight total : Nat) (v : Viewport) : Viewport :=
  specMoveBy viewHeight total v ((viewHeight + 1) / 2 : Nat)

/-- Follows the spec's words (§4.1): `HalfPageUp` is `MoveBy` with
`delta = -⌈viewHeight/2⌉`. -/
def specHalfPageUp (viewHeight total : Nat) (v : Viewport) : Viewport :=
  specMoveBy viewHeight total v (-((viewHeight + 1) / 2 : Nat))

/-- C7 counterexample: with pane height 6 (`viewHeight = 4`), 10 visible
items and the cursor at 0, the code's half-page-down moves the cursor by
`6 / 2 = 3`, while the claimed `delta = ⌈viewHeight/2⌉ = 2` would move it to
2.  The claim's formula disagrees with the code whenever `viewHeight` is
even. -/
theorem json_halfpage_delta_counterexample :
    jsonHalfPageDown 6 10 ⟨0, 0⟩ = ⟨3, 0⟩ ∧
      specHalfPageDown 4 10 ⟨0, 0⟩ = ⟨2, 0⟩ ∧
      jsonHalfPageDown 6 10 ⟨0, 0⟩ ≠ specHalfPageDown 4 10 ⟨0, 0⟩ := by
  decide

theorem jsonHalfPageDown_eq_specMoveBy (height total : Nat) (c o : Int)
    (hh : 2 ≤ height) (hc0 : 0 ≤ c) :
    jsonHalfPageDown height total ⟨c, o⟩ =
      specMoveBy (height - 2) total ⟨c, o⟩ ((height / 2 : Nat)) := by
  simp only [jsonHalfPageDown, jsonEnsureVisible, specMoveBy]
  have e1 : ((height - 2 : Nat) : Int) = (height : Int) - 2 := by omega
  have hC : (if c + ((height / 2 : Nat) : Int) ≥ (total : Int) then (total : Int) - 1
        else c + ((height / 2 : Nat) : Int)) =
      min (max (c + ((height / 2 : Nat) : Int)) 0) ((total : Int) - 1) := by
    split_ifs <;> omega
  rw [e1, hC]

theorem jsonHalfPageUp_eq_specMoveBy (height total : Nat) (c o : Int)
    (hh : 2 ≤ height) (hc0 : 0 ≤ c) (hct : c < (total : Int)) :
    jsonHalfPageUp height ⟨c, o⟩ =
      specMoveBy (height - 2) total ⟨c, o⟩ (-((height / 2 : Nat) : Int)) := by
  simp only [jsonHalfPageUp, jsonEnsureVisible, specMoveBy]
  have e1 : ((height - 2 : Nat) : Int) = (height : Int) - 2 := by omega
  have hC : (if c - ((height / 2 : Nat) : Int) < 0 then 0
        else c - ((height / 2 : Nat) : Int)) =
      min (max (c + -((height / 2 : Nat) : Int)) 0) ((total : Int) - 1) := by
    split_ifs <;> omega
  rw [e1, hC]

/-- C7 (amended): the code's half-page step uses `delta = ⌊height/2⌋ =
⌊viewHeight/2⌋ + 1`, which coincides with the claimed `⌈viewHeight/2⌉`
exactly when `viewHeight` is odd.  For odd `viewHeight` and an in-range
cursor both half-page handlers agree with the spec's `MoveBy`, and the
claimed scenario holds: cursor 2 of 10, `viewHeight = 5` (pane height 7),
offset 0 — half-page-down yields cursor 5, offset 1. -/
theorem json_halfpage_odd_matches_spec (height total : Nat) (v : Viewport)
    (hh : 2 ≤ height) (hodd : (height - 2) % 2 = 1)
    (hc0 : 0 ≤ v.cursor) (hct : v.cursor < (total : Int)) :
    jsonHalfPageDown height total v = specHalfPageDown (height - 2) total v ∧
      jsonHalfPageUp height v = specHalfPageUp (height - 2) total v ∧
      jsonHalfPageDown 7 10 ⟨2, 0⟩ = ⟨5, 1⟩ := by
  obtain ⟨c, o⟩ := v
  dsimp only at hc0 hct
  have hd2 : ((height - 2) + 1) / 2 = height / 2 := by omega
  refine ⟨?_, ?_, by decide⟩
  · simp only [specHalfPageDown, hd2]
    exact jsonHalfPageDown_eq_specMoveBy height total c o hh hc0
  · simp only [specHalfPageUp, hd2]
    exact jsonHalfPageUp_eq_specMoveBy height total c o hh hc0 hct

/-- Concrete run of `json_halfpage_odd_matches_spec` at pane height 7
(`viewHeight = 5`), 10 items, cursor 2. -/
theorem json_halfpage_odd_matches_spec_witness :
    jsonHalfPageDown 7 10 ⟨2, 0⟩ = specHalfPageDown 5 10 ⟨2, 0⟩ :=
  (json_halfpage_odd_matches_spec 7 10 ⟨2, 0⟩ (by decide) (by decide)
    (by decide) (by decide)).1

/-! ## JSON tree model (part_001) -/

/-- `JSONNode` (part_001:15-22).  The `Value` payload is omitted: scalar
payloads (including `float64` numbers) never influence tree structure,
visibility or expansion, which is all the claims quantify over. -/
inductive JSONNode where
  | mk (key : String) (expanded : Bool) (isArray : Bool) (depth : Nat)
      (children : List JSONNode)

def JSONNode.key : JSONNode → String
  | .mk k _ _ _ _ => k

def JSONNode.expanded : JSONNode → Bool
  | .mk _ e _ _ _ => e

def JSONNode.isArray : JSONNode → Bool
  | .mk _ _ a _ _ => a

def JSONNode.depth : JSONNode → Nat
  | .mk _ _ _ d _ => d

def JSONNode.children : JSONNode → List JSONNode
  | .mk _ _ _ _ cs => cs

mutual
/-- `JSONViewer.collectVisible` (part_001:233-240): append the node, then
recurse into the children only when it is expanded.
`JSONViewer.visibleNodes` (part_001:224-231) is `collectVisible` on the
root. -/
def collectVisible : JSONNode → List JSONNode
  | .mk k e a d cs => .mk k e a d cs :: (if e then collectVisibleList cs else [])

def collectVisibleList : List JSONNode → List JSONNode
  | [] => []
  | c :: cs => collectVisible c ++ collectVisibleList cs
end

mutual
/-- Unconditional depth-first pre-order traversal, for stating that the
visible sequence is a subsequence of it. -/
def preorder : JSONNode → List JSONNode
  | .mk k e a d cs => .mk k e a d cs :: preorderList cs

def preorderList : List JSONNode → List JSONNode
  | [] => []
  | c :: cs => preorder c ++ preorderList cs
end

/-- `VisibleFrom t x`: `x` is `t` itself, or lies below `t` along a chain of
ancestors that are all expanded — the spec's characterization of the nodes
that `Flatten()` must produce. -/
inductive VisibleFrom : JSONNode → JSONNode → Prop where
  | refl (n : JSONNode) : VisibleFrom n n
  | step {t c x : JSONNode} (he : t.expanded = true) (hc : c ∈ t.children)
      (h : VisibleFrom c x) : VisibleFrom t x

theorem mem_collectVisibleList_iff (l : List JSONNode) (x : JSONNode) :
    x ∈ collectVisibleList l ↔ ∃ c ∈ l, x ∈ collectVisible c := by
  induction l with
  | nil => simp [collectVisibleList]
  | cons c cs ih => simp [collectVisibleList, ih]

theorem visibleFrom_of_mem_collect :
    ∀ (t x : JSONNode), x ∈ collectVisible t → VisibleFrom t x
  | .mk k e a d cs, x, hx => by
    rw [collectVisible] at hx
    rcases List.mem_cons.mp hx with h | h
    · subst h
      exact .refl _
    · rcases e with _ | _
      · simp at h
      · obtain ⟨c, hc, hxc⟩ := (mem_collectVisibleList_iff cs x).mp (by simpa using h)
        exact .step (by simp [JSONNode.expanded]) (by simpa [JSONNode.children] using hc)
          (visibleFrom_of_mem_collect c x hxc)
termination_by t => sizeOf t
decreasing_by
  have := List.sizeOf_lt_of_mem hc
  simp only [JSONNode.mk.sizeOf_spec]
  omega

theorem mem_collect_of_visibleFrom {t x : JSONNode} (h : VisibleFrom t x) :
    x ∈ collectVisible t := by
  induction h with
  | refl n =>
    obtain ⟨k, e, a, d, cs⟩ := n
    rw [collectVisible]
    exact List.mem_cons_self _ _
  | step he hc hvis ih =>
    rename_i t c x
    obtain ⟨k, e, a, d, cs⟩ := t
    simp only [JSONNode.expanded] at he
    simp only [JSONNode.children] at hc
    subst he
    rw [collectVisible]
    exact List.mem_cons_of_mem _ (by
      simp only [if_pos]
      exact (mem_collectVisibleList_iff cs x).mpr ⟨c, hc, ih⟩)

mutual
theorem collectVisible_sublist : ∀ (t : JSONNode), (collectVisible t).Sublist (preorder t)
  | .mk k e a d cs => by
    rw [collectVisible, preorder]
    refine List.Sublist.cons₂ _ ?_
    rcases e with _ | _
    · simp
    · simpa using collectVisibleList_sublist cs

theorem collectVisibleList_sublist :
    ∀ (l : List JSONNode), (collectVisibleList l).Sublist (preorderList l)
  | [] => List.Sublist.refl _
  | c :: cs => by
    rw [collectVisibleList, preorderList]
    exact (collectVisible_sublist c).append (collectVisibleList_sublist cs)
end

mutual
/-- The `enter`/`l` toggle of `JSONViewer.Update` (part_001:71-77), addressed
by a path of child indices from the root (the Go code reaches the node via a
pointer into the visible slice; any reachable node is some path).  The
`expanded` flag flips only when `len(node.Children) > 0`. -/
def toggleNode : List Nat → JSONNode → JSONNode
  | [], .mk k e a d cs => .mk k (if cs.isEmpty then e else !e) a d cs
  | i :: p, .mk k e a d cs => .mk k e a d (toggleChild i p cs)

def toggleChild : Nat → List Nat → List JSONNode → List JSONNode
  | _, _, [] => []
  | 0, p, c :: cs => toggleNode p c :: cs
  | i + 1, p, c :: cs => c :: toggleChild i p cs
end

/-- Apply a sequence of toggles. -/
def toggleAll (ps : List (List Nat)) (t : JSONNode) : JSONNode :=
  ps.foldl (fun acc p => toggleNode p acc) t

/-- C2: for every tree state reached by any sequence of `ToggleExpand`
operations, the visible sequence produced by `collectVisible` is a
subsequence of the depth-first pre-order traversal (so visible nodes appear
in pre-order), and it contains exactly the root plus the nodes all of whose
ancestors are expanded: membership is equivalent to `VisibleFrom`. -/
theorem flatten_exactly_expanded_chains (t : JSONNode) (ps : List (List Nat)) :
    (collectVisible (toggleAll ps t)).Sublist (preorder (toggleAll ps t)) ∧
      ∀ x, x ∈ collectVisible (toggleAll ps t) ↔ VisibleFrom (toggleAll ps t) x :=
  ⟨collectVisible_sublist _, fun x =>
    ⟨visibleFrom_of_mem_collect _ x, mem_collect_of_visibleFrom⟩⟩

/-- Concrete run of `flatten_exactly_expanded_chains`: a two-level tree with
the root toggled open. -/
theorem flatten_exactly_expanded_chains_witness :
    (collectVisible (toggleAll [[]] (.mk "" false false 0 [.mk "a" false false 1 []]))).Sublist
      (preorder (toggleAll [[]] (.mk "" false false 0 [.mk "a" false false 1 []]))) :=
  (flatten_exactly_expanded_chains (.mk "" false false 0 [.mk "a" false false 1 []]) [[]]).1

/-! ## Building the JSON tree (part_001: Load / buildTree) -/

/-- The result of Go's `json.Unmarshal` into `any` (part_001:278-280).
An object unmarshals to `map[string]any`; `entries` records the key/value
pairs in the order in which `for k, val := range v` iterates the map — Go
map iteration order is unspecified and in particular unrelated to the
document's key order, which the map does not retain.  Scalar payloads are
irrelevant to tree structure and are carried only where cheap. -/
inductive GoJSON where
  | obj (entries : List (String × GoJSON))
  | arr (elems : List GoJSON)
  | str (s : String)
  | boolV (b : Bool)
  | num
  | nullV

mutual
/-- `buildTree` (part_001:291-315): objects and arrays become container
nodes with `Expanded = false`; scalars become leaves.  Array children are
keyed `[i]` by index. -/
def buildTree (key : String) (v : GoJSON) (depth : Nat) : JSONNode :=
  match v with
  | .obj kvs => .mk key false false depth (buildTreeFields kvs depth)
  | .arr xs => .mk key false true depth (buildTreeElems xs depth 0)
  | .str _ => .mk key false false depth []
  | .boolV _ => .mk key false false depth []
  | .num => .mk key false false depth []
  | .nullV => .mk key false false depth []

def buildTreeFields (kvs : List (String × GoJSON)) (depth : Nat) : List JSONNode :=
  match kvs with
  | [] => []
  | (k, v) :: rest => buildTree k v (depth + 1) :: buildTreeFields rest depth

def buildTreeElems (xs : List GoJSON) (depth : Nat) (i : Nat) : List JSONNode :=
  match xs with
  | [] => []
  | v :: rest =>
    buildTree ("[" ++ toString i ++ "]") v (depth + 1) :: buildTreeElems rest depth (i + 1)
end

/-- Setting the root's `Expanded` flag, as done by `root.Expanded = true`. -/
def JSONNode.withExpanded : JSONNode → Bool → JSONNode
  | .mk k _ a d cs, e => .mk k e a d cs

/-- Success path of `JSONViewer.Load` (part_001:283-287): build the tree
from the parsed value, then auto-expand the root unconditionally. -/
def jsonLoad (v : GoJSON) : JSONNode :=
  (buildTree "" v 0).withExpanded true

/-- The spec's node invariant (§3): a node with no children is never
expanded, recursively through the tree. -/
inductive NodeWF : JSONNode → Prop where
  | mk {k : String} {e a : Bool} {d : Nat} {cs : List JSONNode}
      (hleaf : cs = [] → e = false) (hcs : ∀ c ∈ cs, NodeWF c) :
      NodeWF (.mk k e a d cs)

theorem mem_buildTreeFields {kvs : List (String × GoJSON)} {d : Nat} {c : JSONNode}
    (hc : c ∈ buildTreeFields kvs d) :
    ∃ kv ∈ kvs, c = buildTree kv.1 kv.2 (d + 1) := by
  induction kvs with
  | nil => rw [buildTreeFields] at hc; simp at hc
  | cons kv rest ih =>
    obtain ⟨k, v⟩ := kv
    rw [buildTreeFields] at hc
    rcases List.mem_cons.mp hc with h | h
    · exact ⟨(k, v), List.mem_cons_self _ _, h⟩
    · obtain ⟨kv, hkv, hceq⟩ := ih h
      exact ⟨kv, List.mem_cons_of_mem _ hkv, hceq⟩

theorem mem_buildTreeElems {xs : List GoJSON} {d i : Nat} {c : JSONNode}
    (hc : c ∈ buildTreeElems xs d i) :
    ∃ v ∈ xs, ∃ j : Nat, c = buildTree ("[" ++ toString j ++ "]") v (d + 1) := by
  induction xs generalizing i with
  | nil => rw [buildTreeElems] at hc; simp at hc
  | cons v rest ih =>
    rw [buildTreeElems] at hc
    rcases List.mem_cons.mp hc with h | h
    · exact ⟨v, List.mem_cons_self _ _, i, h⟩
    · obtain ⟨w, hw, j, hceq⟩ := ih h
      exact ⟨w, List.mem_cons_of_mem _ hw, j, hceq⟩

theorem buildTree_wf : ∀ (k : String) (v : GoJSON) (d : Nat), NodeWF (buildTree k v d)
  | k, .obj kvs, d => by
    rw [buildTree]
    refine NodeWF.mk (fun _ => rfl) ?_
    intro c hc
    obtain ⟨kv, hkv, hceq⟩ := mem_buildTreeFields hc
    rw [hceq]
    exact buildTree_wf kv.1 kv.2 (d + 1)
  | k, .arr xs, d => by
    rw [buildTree]
    refine NodeWF.mk (fun _ => rfl) ?_
    intro c hc
    obtain ⟨v, hv, j, hceq⟩ := mem_buildTreeElems hc
    rw [hceq]
    exact buildTree_wf _ v (d + 1)
  | k, .str s, d => by
    rw [buildTree]
    exact NodeWF.mk (fun _ => rfl) (by intro c hc; simp at hc)
  | k, .boolV b, d => by
    rw [buildTree]
    exact NodeWF.mk (fun _ => rfl) (by intro c hc; simp at hc)
  | k, .num, d => by
    rw [buildTree]
    exact NodeWF.mk (fun _ => rfl) (by intro c hc; simp at hc)
  | k, .nullV, d => by
    rw [buildTree]
    exact NodeWF.mk (fun _ => rfl) (by intro c hc; simp at hc)
termination_by _ v _ => sizeOf v
decreasing_by
  · have h1 := List.sizeOf_lt_of_mem hkv
    obtain ⟨k1, v1⟩ := kv
    simp only [GoJSON.obj.sizeOf_spec]
    simp only [Prod.mk.sizeOf_spec] at h1
    omega
  · have h1 := List.sizeOf_lt_of_mem hv
    simp only [GoJSON.arr.sizeOf_spec]
    omega

theorem toggleChild_eq_nil_iff (i : Nat) (p : List Nat) (cs : List JSONNode) :
    toggleChild i p cs = [] ↔ cs = [] := by
  cases cs with
  | nil => rw [toggleChild]
  | cons c rest =>
    cases i with
    | zero => rw [toggleChild]; simp
    | succ j => rw [toggleChild]; simp

theorem mem_toggleChild {i : Nat} {p : List Nat} {cs : List JSONNode} {c : JSONNode}
    (hc : c ∈ toggleChild i p cs) : c ∈ cs ∨ ∃ c0 ∈ cs, c = toggleNode p c0 := by
  induction cs generalizing i with
  | nil => rw [toggleChild] at hc; simp at hc
  | cons c0 rest ih =>
    cases i with
    | zero =>
      rw [toggleChild] at hc
      rcases List.mem_cons.mp hc with h | h
      · exact Or.inr ⟨c0, List.mem_cons_self _ _, h⟩
      · exact Or.inl (List.mem_cons_of_mem _ h)
    | succ j =>
      rw [toggleChild] at hc
      rcases List.mem_cons.mp hc with h | h
      · exact Or.inl (h ▸ List.mem_cons_self _ _)
      · rcases ih h with h' | ⟨c1, hc1, hc2⟩
        · exact Or.inl (List.mem_cons_of_mem _ h')
        · exact Or.inr ⟨c1, List.mem_cons_of_mem _ hc1, hc2⟩

theorem toggleNode_wf : ∀ (p : List Nat) (t : JSONNode), NodeWF t → NodeWF (toggleNode p t)
  | [], .mk k e a d cs, h => by
    cases h with
    | mk hleaf hcs =>
      rw [toggleNode]
      refine NodeWF.mk (fun hnil => ?_) hcs
      simp [hnil, hleaf hnil]
  | i :: p, .mk k e a d cs, h => by
    cases h with
    | mk hleaf hcs =>
      rw [toggleNode]
      refine NodeWF.mk (fun hnil => hleaf ((toggleChild_eq_nil_iff i p cs).mp hnil)) ?_
      intro c hc
      rcases mem_toggleChild hc with h' | ⟨c0, hc0, hc2⟩
      · exact hcs c h'
      · exact hc2 ▸ toggleNode_wf p c0 (hcs c0 hc0)

theorem toggleAll_wf (ps : List (List Nat)) (t : JSONNode) (h : NodeWF t) :
    NodeWF (toggleAll ps t) := by
  induction ps generalizing t with
  | nil => exact h
  | cons p ps ih => exact ih _ (toggleNode_wf p t h)

/-- C9 (amended): `buildTree` establishes the leaf invariant (childless
nodes are collapsed) everywhere, and every expand/collapse toggle preserves
it; `Load` re-establishes it for every document whose root has children
(objects/arrays with at least one entry).  The invariant fails only through
`Load`'s unconditional auto-expansion of the root on a childless document:
see the counterexample. -/
theorem leaf_invariant_amended (k : String) (v : GoJSON) (d : Nat)
    (p : List Nat) (t : JSONNode) (ht : NodeWF t)
    (ps : List (List Nat)) (hroot : (buildTree "" v 0).children ≠ []) :
    NodeWF (buildTree k v d) ∧ NodeWF (toggleNode p t) ∧
      NodeWF (toggleAll ps (jsonLoad v)) := by
  refine ⟨buildTree_wf k v d, toggleNode_wf p t ht, toggleAll_wf ps _ ?_⟩
  rw [jsonLoad]
  rcases hbt : buildTree "" v 0 with ⟨k0, e0, a0, d0, cs0⟩
  have hwf := buildTree_wf "" v 0
  rw [hbt] at hwf hroot
  cases hwf with
  | mk hleaf hcs =>
    rw [JSONNode.withExpanded]
    exact NodeWF.mk (fun hnil => absurd hnil (by simpa [JSONNode.children] using hroot)) hcs

/-- Concrete run of `leaf_invariant_amended` on a one-field object document
with a root toggle. -/
theorem leaf_invariant_amended_witness :
    NodeWF (toggleAll [[]] (jsonLoad (.obj [("a", .nullV)]))) :=
  (leaf_invariant_amended "" (.obj [("a", .nullV)]) 0 [] (.mk "" false false 0 [])
    (NodeWF.mk (fun _ => rfl) (by intro c hc; simp at hc)) [[]]
    (by exact fun h => List.noConfusion h)).2.2

/-- C9 counterexample: loading a scalar document (e.g. JSON `null`) gives a
root with no children yet `expanded = true` — `Load` auto-expands the root
unconditionally (part_001:285), violating the claimed invariant. -/
theorem json_load_scalar_counterexample :
    (jsonLoad GoJSON.nullV).children = [] ∧
      (jsonLoad GoJSON.nullV).expanded = true ∧
      ¬ NodeWF (jsonLoad GoJSON.nullV) := by
  refine ⟨rfl, rfl, fun h => ?_⟩
  cases h with
  | mk hleaf hcs => exact Bool.noConfusion (hleaf rfl)

theorem buildTree_key (k : String) (v : GoJSON) (d : Nat) : (buildTree k v d).key = k := by
  cases v <;> rw [buildTree] <;> rfl

theorem buildTreeFields_keys (kvs : List (String × GoJSON)) (d : Nat) :
    (buildTreeFields kvs d).map JSONNode.key = kvs.map Prod.fst := by
  induction kvs with
  | nil => rw [buildTreeFields]; rfl
  | cons kv rest ih =>
    obtain ⟨k, v⟩ := kv
    rw [buildTreeFields]
    simp [buildTree_key, ih]

theorem buildTreeElems_length (xs : List GoJSON) (d i : Nat) :
    (buildTreeElems xs d i).length = xs.length := by
  induction xs generalizing i with
  | nil => rw [buildTreeElems]; rfl
  | cons v rest ih => rw [buildTreeElems]; simp only [List.length_cons, ih]

theorem buildTreeElems_getD (xs : List GoJSON) (d i0 i : Nat) (h : i < xs.length) :
    (buildTreeElems xs d i0).getD i (.mk "" false false 0 []) =
      buildTree ("[" ++ toString (i0 + i) ++ "]") (xs.getD i GoJSON.nullV) (d + 1) := by
  induction xs generalizing i0 i with
  | nil => simp at h
  | cons v rest ih =>
    rw [buildTreeElems]
    cases i with
    | zero => simp only [List.getD_cons_zero, Nat.add_zero]
    | succ j =>
      have hj : j < rest.length := by simpa using h
      have := ih (i0 + 1) j hj
      rw [List.getD_cons_succ, List.getD_cons_succ, this]
      have harith : i0 + 1 + j = i0 + (j + 1) := by omega
      rw [harith]

/-- C8 (amended): the children of an object node carry exactly the keys of
the Go map in its iteration order (an unspecified permutation of the
document's keys — parser order is not retained by `map[string]any`), and
the children of an array node are in index order: the `i`-th child is built
from the `i`-th element under key `[i]`. -/
theorem buildTree_children_order (k : String) (d : Nat)
    (kvs : List (String × GoJSON)) (xs : List GoJSON) (i : Nat) (hi : i < xs.length) :
    (buildTree k (.obj kvs) d).children.map JSONNode.key = kvs.map Prod.fst ∧
      (buildTree k (.arr xs) d).children.length = xs.length ∧
      (buildTree k (.arr xs) d).children.getD i (.mk "" false false 0 []) =
        buildTree ("[" ++ toString i ++ "]") (xs.getD i GoJSON.nullV) (d + 1) := by
  refine ⟨?_, ?_, ?_⟩
  · rw [buildTree]; exact buildTreeFields_keys kvs d
  · rw [buildTree]; exact buildTreeElems_length xs d 0
  · rw [buildTree]
    simpa using buildTreeElems_getD xs d 0 i hi

/-- Concrete run of `buildTree_children_order` on a two-element array. -/
theorem buildTree_children_order_witness :
    (buildTree "" (.arr [GoJSON.num, GoJSON.nullV]) 0).children.getD 1
        (.mk "" false false 0 []) =
      buildTree ("[" ++ toString 1 ++ "]") GoJSON.nullV 1 :=
  (buildTree_children_order "" 0 [] [GoJSON.num, GoJSON.nullV] 1 (by decide)).2.2

/-- A possible Go map iteration order for the two-key document
`{"b": null, "a": null}` (document order `b`, `a`). -/
def objIterOrder : List (String × GoJSON) := [("a", .nullV), ("b", .nullV)]

/-- The same two keys in the document (parser) order. -/
def objDocOrder : List (String × GoJSON) := [("b", .nullV), ("a", .nullV)]

/-- C8 counterexample: `buildTree` receives object fields from `range` over
a Go map, whose iteration order is unspecified; for the document
`{"b": null, "a": null}` the iteration order `a, b` is possible (it is a
permutation of the document entries), and the resulting children keys
`[a, b]` differ from the parser-supplied order `[b, a]`. -/
theorem object_key_order_counterexample :
    objIterOrder.Perm objDocOrder ∧
      (buildTree "" (.obj objIterOrder) 0).children.map JSONNode.key = ["a", "b"] ∧
      objDocOrder.map Prod.fst = ["b", "a"] ∧
      (buildTree "" (.obj objIterOrder) 0).children.map JSONNode.key ≠
        objDocOrder.map Prod.fst := by
  refine ⟨List.Perm.swap _ _ _, rfl, rfl, by decide⟩

/-! ## Stale-load discard (viewer.go TextViewer, part_001 JSONViewer) -/

/-- `FileLoadedMsg` (viewer.go:20-24); the Go `error` is an optional
message. -/
structure FileLoadedMsg where
  path : String
  content : String
  err : Option String
deriving DecidableEq, Repr

/-- The fields of `TextViewer` (viewer.go:101-111) that loading touches. -/
structure TextViewerState where
  path : String
  content : String
  lines : List String
  offset : Int
  err : Option String
deriving DecidableEq, Repr

/-- `TextViewer.Load` (viewer.go:211-221): records the requested path
synchronously; the file read happens in a background command that later
re-enters the event loop as a `FileLoadedMsg` carrying the same path. -/
def tvLoad (t : TextViewerState) (p : String) : TextViewerState :=
  { t with path := p }

/-- The `FileLoadedMsg` branch of `TextViewer.Update` (viewer.go:123-129):
the completion is applied only when its path matches the currently expected
path, otherwise the message is dropped unchanged. -/
def tvDeliver (t : TextViewerState) (m : FileLoadedMsg) : TextViewerState :=
  if m.path = t.path then
    { t with content := m.content, lines := m.content.splitOn "\n",
             offset := 0, err := m.err }
  else t

/-- C3: a completion whose path differs from the currently expected path is
discarded as a no-op, and after `Select(A); Select(B)` (for distinct A, B)
the viewer shows B's content once both completions have arrived, in either
arrival order. -/
theorem stale_load_discarded (t : TextViewerState) (A B cA cB : String)
    (eA eB : Option String) (hAB : A ≠ B) :
    (∀ (w : TextViewerState) (m : FileLoadedMsg), m.path ≠ w.path → tvDeliver w m = w) ∧
      tvDeliver (tvDeliver (tvLoad (tvLoad t A) B) ⟨A, cA, eA⟩) ⟨B, cB, eB⟩ =
        { path := B, content := cB, lines := cB.splitOn "\n", offset := 0, err := eB } ∧
      tvDeliver (tvDeliver (tvLoad (tvLoad t A) B) ⟨B, cB, eB⟩) ⟨A, cA, eA⟩ =
        { path := B, content := cB, lines := cB.splitOn "\n", offset := 0, err := eB } := by
  refine ⟨fun w m hm => ?_, ?_, ?_⟩
  · rw [tvDeliver, if_neg hm]
  · simp [tvLoad, tvDeliver, hAB]
  · simp [tvLoad, tvDeliver, hAB]

/-- Concrete run of `stale_load_discarded`: selecting `a.txt` then `b.txt`
and delivering the completions out of order still shows `b.txt`'s
content. -/
theorem stale_load_discarded_witness :
    tvDeliver (tvDeliver (tvLoad (tvLoad ⟨"", "", [], 0, none⟩ "a.txt") "b.txt")
        ⟨"b.txt", "bee", none⟩) ⟨"a.txt", "ay", none⟩ =
      { path := "b.txt", content := "bee", lines := "bee".splitOn "\n",
        offset := 0, err := none } :=
  (stale_load_discarded ⟨"", "", [], 0, none⟩ "a.txt" "b.txt" "ay" "bee" none none
    (by decide)).2.2

/-! ## Pane focus and mode machine (part_000 App) -/

/-- `Mode` (part_000:207-213). -/
inductive Mode where
  | modeNav
  | modeViewer
  | modeEditor
deriving DecidableEq, Repr

/-- `Focus` (part_000:198-204). -/
inductive Focus where
  | focusNav
  | focusViewer
deriving DecidableEq, Repr

/-- The `App` fields that the `EditorSavedMsg` handler touches
(part_000:224-236). -/
structure AppState where
  mode : Mode
  focus : Focus
  editorFocused : Bool
  viewerFocused : Bool
deriving DecidableEq, Repr

/-- The command emitted by the handler: either nothing or a reload of a path
into the content viewer (`a.viewer.OpenFile`). -/
inductive AppCmd where
  | noCmd
  | reload (path : String)
deriving DecidableEq, Repr

/-- The `EditorSavedMsg` branch of `App.Update` (part_000:355-367): always
return to viewer mode with focus on the content pane; issue the reload
command only when the save reported no error.  The error value itself is
read only for the nil-check and is otherwise dropped. -/
def handleEditorSaved (a : AppState) (path : String) (err : Option String) :
    AppState × AppCmd :=
  let a1 : AppState :=
    { a with mode := .modeViewer, editorFocused := false,
             viewerFocused := true, focus := .focusViewer }
  if err.isNone then (a1, .reload path) else (a1, .noCmd)

/-- C5 (amended): on save completion the mode machine always returns to
viewing mode with content focus; on success it issues a reload of the saved
path, on failure it issues nothing — and the failure is *not* surfaced: the
resulting state does not depend on the error at all. -/
theorem editor_saved_transition (a : AppState) (p : String) (e : String) :
    handleEditorSaved a p none =
      ({ a with mode := .modeViewer, editorFocused := false,
                viewerFocused := true, focus := .focusViewer }, .reload p) ∧
      handleEditorSaved a p (some e) =
        ({ a with mode := .modeViewer, editorFocused := false,
                  viewerFocused := true, focus := .focusViewer }, .noCmd) :=
  ⟨rfl, rfl⟩

/-- Concrete run of `editor_saved_transition`. -/
theorem editor_saved_transition_witness :
    handleEditorSaved ⟨.modeEditor, .focusViewer, true, false⟩ "f.txt" none =
      (⟨.modeViewer, .focusViewer, false, true⟩, .reload "f.txt") :=
  (editor_saved_transition ⟨.modeEditor, .focusViewer, true, false⟩ "f.txt" "x").1

/-- C5 counterexample (to the "failure is surfaced to the user" part): the
post-state after a failed save is identical for different error messages and
identical to the post-state of a successful save — the handler discards the
error, so nothing downstream can surface it. -/
theorem save_failure_not_surfaced_counterexample :
    handleEditorSaved ⟨.modeEditor, .focusViewer, true, false⟩ "f.txt" (some "disk full") =
        handleEditorSaved ⟨.modeEditor, .focusViewer, true, false⟩ "f.txt"
          (some "permission denied") ∧
      (handleEditorSaved ⟨.modeEditor, .focusViewer, true, false⟩ "f.txt"
          (some "disk full")).1 =
        (handleEditorSaved ⟨.modeEditor, .focusViewer, true, false⟩ "f.txt" none).1 := by
  decide

/-! ## Content viewer dispatch (viewer.go ViewerRouter) -/

/-- Backward scan of `filepath.Ext`: walking the path from its end, stop at
the first `.` (returning it plus everything after it) or at a path
separator or the start of the string (returning the empty extension).
`acc` holds the characters already passed, in original order. -/
def extScan (acc : List Char) : List Char → List Char
  | [] => []
  | c :: rest =>
    if c = '/' then []
    else if c = '.' then '.' :: acc
    else extScan (c :: acc) rest

/-- `filepath.Ext(path)` (used by every `CanView`): the suffix starting at
the final dot of the last path element, as a character list. -/
def fileExt (p : String) : List Char :=
  extScan [] p.data.reverse

/-- ASCII-faithful model of `strings.ToLower` on a character list. -/
def lowerChars (cs : List Char) : List Char :=
  cs.map Char.toLower

/-- The three registered viewers (viewer.go:36-42), in registration order:
markdown, JSON, text. -/
inductive ViewerKind where
  | markdown
  | json
  | text
deriving DecidableEq, Repr

/-- `CanView` of each viewer: `MarkdownViewer.CanView`
(viewer_markdown.go:114-117), `JSONViewer.CanView` (part_001:265-268), and
`TextViewer.CanView` (viewer.go:206-209), which accepts everything. -/
def canView : ViewerKind → String → Bool
  | .markdown, p =>
    lowerChars (fileExt p) = ".md".data || lowerChars (fileExt p) = ".markdown".data
  | .json, p => lowerChars (fileExt p) = ".json".data
  | .text, _ => true

/-- The registration order of `ViewerRouter.viewers` (viewer.go:40): order
matters, the generic text viewer comes last. -/
def routerViewers : List ViewerKind :=
  [.markdown, .json, .text]

/-- `ViewerRouter.OpenFile` viewer selection (viewer.go:85-98): pick the
first viewer in registration order whose `CanView` accepts the path.  The
fall-through after the loop selects `viewers[0]` (the markdown viewer); it
is unreachable because the text viewer accepts every path. -/
def openFileViewer (p : String) : ViewerKind :=
  match routerViewers.find? (fun v => canView v p) with
  | some v => v
  | none => ViewerKind.markdown

/-- C4: dispatch picks the first viewer in registration order that claims
the path; the text viewer (the fallback, which accepts anything) is chosen
exactly when neither specific viewer claims it; and dispatch is a pure
function of the extension (the capability tag). -/
theorem dispatch_first_match (p q : String) (hpq : fileExt p = fileExt q) :
    (openFileViewer p = .markdown ↔ canView .markdown p = true) ∧
      (openFileViewer p = .json ↔
        (canView .markdown p = false ∧ canView .json p = true)) ∧
      (openFileViewer p = .text ↔
        (canView .markdown p = false ∧ canView .json p = false)) ∧
      canView .text p = true ∧
      openFileViewer p = openFileViewer q := by
  have hext : ∀ v : ViewerKind, canView v p = canView v q := by
    intro v
    cases v <;> simp only [canView, hpq]
  have htx : canView ViewerKind.text p = true := rfl
  refine ⟨?_, ?_, ?_, rfl, ?_⟩
  · simp only [openFileViewer, routerViewers, List.find?]
    cases hmd : canView ViewerKind.markdown p <;>
      cases hjs : canView ViewerKind.json p <;> simp [hmd, hjs, htx]
  · simp only [openFileViewer, routerViewers, List.find?]
    cases hmd : canView ViewerKind.markdown p <;>
      cases hjs : canView ViewerKind.json p <;> simp [hmd, hjs, htx]
  · simp only [openFileViewer, routerViewers, List.find?]
    cases hmd : canView ViewerKind.markdown p <;>
      cases hjs : canView ViewerKind.json p <;> simp [hmd, hjs, htx]
  · simp only [openFileViewer, routerViewers, List.find?, hext]

/-- Concrete run of `dispatch_first_match`: two `.md` paths dispatch to the
same viewer. -/
theorem dispatch_first_match_witness :
    openFileViewer "a.md" = openFileViewer "b.md" :=
  (dispatch_first_match "a.md" "b.md" (by decide)).2.2.2.2

/-! ## Directory listing (nav.go loadDir) -/

/-- One entry of `os.ReadDir`'s result: a name and whether it is a
directory. -/
structure DirEntry where
  name : String
  isDir : Bool
deriving DecidableEq, Repr

/-- The comparator passed to `sort.Slice` in `NavPane.loadDir`
(nav.go:138-145): directories sort before files, ties broken by comparing
`strings.ToLower` of the names.  Go compares strings byte-wise; on these
character lists the code-point lexicographic order of the lowered
characters is the same relation. -/
def dirLess (a b : DirEntry) : Bool :=
  if a.isDir != b.isDir then a.isDir
  else decide (lowerChars a.name.data < lowerChars b.name.data)

theorem dirLess_asymm {a b : DirEntry} (h : dirLess a b = true) :
    dirLess b a = false := by
  rw [dirLess] at h ⊢
  cases ha : a.isDir <;> cases hb : b.isDir <;> simp [ha, hb] at h ⊢ <;>
    exact le_of_lt h

theorem dirLess_neg_trans {a b c : DirEntry} (h1 : dirLess b a = false)
    (h2 : dirLess c b = false) : dirLess c a = false := by
  rw [dirLess] at h1 h2 ⊢
  cases ha : a.isDir <;> cases hb : b.isDir <;> cases hc : c.isDir <;>
    simp [ha, hb, hc] at h1 h2 ⊢ <;>
    exact le_trans h1 h2

/-- Sorted insertion by the `dirLess` comparator. -/
def insertEntry (x : DirEntry) : List DirEntry → List DirEntry
  | [] => [x]
  | y :: ys => if dirLess y x then y :: insertEntry x ys else x :: y :: ys

/-- Model of `sort.Slice(files, dirLess)` (nav.go:138-145).  `sort.Slice`
is an unstable sort, i.e. it promises some permutation that is sorted by
the comparator; insertion sort realises that contract (the scenario below
involves no comparator ties, where unstable order could differ). -/
def sortEntries : List DirEntry → List DirEntry
  | [] => []
  | x :: xs => insertEntry x (sortEntries xs)

theorem insertEntry_perm (x : DirEntry) (l : List DirEntry) :
    (insertEntry x l).Perm (x :: l) := by
  induction l with
  | nil => rfl
  | cons y ys ih =>
    rw [insertEntry]
    split_ifs
    · exact (ih.cons y).trans (List.Perm.swap x y ys)
    · exact List.Perm.refl _

theorem sortEntries_perm (l : List DirEntry) : (sortEntries l).Perm l := by
  induction l with
  | nil => rfl
  | cons x xs ih =>
    rw [sortEntries]
    exact (insertEntry_perm x (sortEntries xs)).trans (ih.cons x)

theorem insertEntry_pairwise (x : DirEntry) (l : List DirEntry)
    (hl : l.Pairwise (fun a b => dirLess b a = false)) :
    (insertEntry x l).Pairwise (fun a b => dirLess b a = false) := by
  induction l with
  | nil => simp [insertEntry]
  | cons y ys ih =>
    rw [insertEntry]
    rcases List.pairwise_cons.mp hl with ⟨hy, hys⟩
    split_ifs with hle
    · refine List.pairwise_cons.mpr ⟨?_, ih hys⟩
      intro z hz
      rcases List.mem_cons.mp ((insertEntry_perm x ys).mem_iff.mp hz) with hzx | hzy
      · rw [hzx]
        exact dirLess_asymm hle
      · exact hy z hzy
    · have hle' : dirLess y x = false := by simpa using hle
      refine List.pairwise_cons.mpr ⟨?_, hl⟩
      intro z hz
      rcases List.mem_cons.mp hz with hzy | hzys
      · rw [hzy]
        exact hle'
      · exact dirLess_neg_trans hle' (hy z hzys)

theorem sortEntries_pairwise (l : List DirEntry) :
    (sortEntries l).Pairwise (fun a b => dirLess b a = false) := by
  induction l with
  | nil => simp [sortEntries]
  | cons x xs ih =>
    rw [sortEntries]
    exact insertEntry_pairwise x (sortEntries xs) ih

/-- `strings.HasPrefix(name, ".")`: the name begins with a dot. -/
def startsWithDot (s : String) : Bool :=
  match s.data with
  | [] => false
  | c :: _ => c = '.'

/-- The hidden-file filter of `NavPane.loadDir` (nav.go:149-152): an entry
is kept unless its name starts with `.` and is not exactly `.git` (the one
configured exception). -/
def keepEntry (e : DirEntry) : Bool :=
  !(startsWithDot e.name && e.name != ".git")

/-- `FileEntry` (nav.go:14-20). -/
structure FileEntry where
  name : String
  path : String
  isDir : Bool
  expanded : Bool
  depth : Nat
deriving DecidableEq, Repr

/-- The `FileEntry` literal built in the loop body (nav.go:155-160):
`filepath.Join(dir, name)` is modelled as `dir ++ "/" ++ name` (none of the
claims depend on path cleaning), and `Expanded` is the zero value `false`. -/
def mkFileEntry (dir : String) (depth : Nat) (f : DirEntry) : FileEntry :=
  ⟨f.name, dir ++ "/" ++ f.name, f.isDir, false, depth⟩

/-- `NavPane.loadDir` for one directory level (nav.go:131-168): `none`
models an `os.ReadDir` error (the function returns, contributing no
entries); otherwise the listing is sorted, hidden names are skipped, and
each survivor becomes a `FileEntry`.  The recursive call for expanded
subdirectories (nav.go:163-166) is unreachable: every freshly built entry
has `Expanded = false`, so the embedded function covers all of `loadDir`'s
output. -/
def loadDir (dir : String) (depth : Nat) (listing : Option (List DirEntry)) :
    List FileEntry :=
  match listing with
  | none => []
  | some files => ((sortEntries files).filter keepEntry).map (mkFileEntry dir depth)

/-- C6: an unreadable directory contributes zero entries; the produced
entries are ordered by the comparator (directories first, then
case-insensitive name order); they are exactly the kept listing entries (a
permutation of the filtered listing, made into `FileEntry` values); every
surviving dot-name is `.git`; and the claim's scenario holds:
`[b.txt, A.txt, sub/]` flattens at depth 0 to `[sub/, A.txt, b.txt]`. -/
theorem loadDir_spec (dir : String) (d : Nat) (files : List DirEntry) :
    loadDir dir d none = [] ∧
      (loadDir dir d (some files)).Pairwise
        (fun a b => dirLess ⟨b.name, b.isDir⟩ ⟨a.name, a.isDir⟩ = false) ∧
      (loadDir dir d (some files)).Perm
        ((files.filter keepEntry).map (mkFileEntry dir d)) ∧
      (∀ e ∈ loadDir dir d (some files), startsWithDot e.name = true → e.name = ".git") ∧
      (loadDir "r" 0 (some [⟨"b.txt", false⟩, ⟨"A.txt", false⟩, ⟨"sub", true⟩])).map
          FileEntry.name = ["sub", "A.txt", "b.txt"] := by
  refine ⟨rfl, ?_, ?_, ?_, by decide⟩
  · rw [loadDir, List.pairwise_map]
    have hs : ((sortEntries files).filter keepEntry).Pairwise
        (fun a b => dirLess b a = false) :=
      (sortEntries_pairwise files).sublist (List.filter_sublist _)
    refine hs.imp ?_
    intro a b hab
    simpa [mkFileEntry] using hab
  · rw [loadDir]
    exact ((sortEntries_perm files).filter keepEntry).map (mkFileEntry dir d)
  · rw [loadDir]
    intro e he hdot
    obtain ⟨f, hf, rfl⟩ := List.mem_map.mp he
    have hkeep : keepEntry f = true := (List.mem_filter.mp hf).2
    rw [keepEntry] at hkeep
    simp only [mkFileEntry] at hdot ⊢
    rcases hgit : f.name != ".git" with _ | _
    · simpa using hgit
    · rw [hdot, hgit] at hkeep
      simp at hkeep

/-- Concrete run of `loadDir_spec`: the scenario list, with `.git` kept and
`.hidden` dropped. -/
theorem loadDir_spec_witness :
    (loadDir "r" 0 (some [⟨"b.txt", false⟩, ⟨"A.txt", false⟩, ⟨"sub", true⟩])).map
        FileEntry.name = ["sub", "A.txt", "b.txt"] :=
  (loadDir_spec "r" 0 []).2.2.2.2

/-! ## Selected path (nav.go SelectedPath) -/

/-- The fields of `NavPane` that `SelectedPath` reads. -/
structure NavModel where
  entries : List FileEntry
  cursor : Int
deriving DecidableEq, Repr

/-- `NavPane.SelectedPath` (nav.go:119-124): the selected entry's path when
the cursor is inside the entry slice, otherwise the empty string.  The
guarded slice access is modelled with a default that the guard makes
unreachable. -/
def selectedPath (n : NavModel) : String :=
  if 0 ≤ n.cursor ∧ n.cursor < (n.entries.length : Int) then
    (n.entries.getD n.cursor.toNat ⟨"", "", false, false, 0⟩).path
  else ""

/-- C10: `SelectedPath` returns `""` whenever the cursor is out of bounds
(in particular on an empty list), and inside bounds it returns the path of
the entry actually at the cursor — the access never leaves the slice. -/
theorem selectedPath_safe (n : NavModel) :
    (n.entries = [] → selectedPath n = "") ∧
      (¬(0 ≤ n.cursor ∧ n.cursor < (n.entries.length : Int)) → selectedPath n = "") ∧
      ∀ (i : Nat) (hi : i < n.entries.length), n.cursor = i →
        selectedPath n = (n.entries.get ⟨i, hi⟩).path := by
  refine ⟨fun hnil => ?_, fun hout => ?_, fun i hi hc => ?_⟩
  · rw [selectedPath, if_neg]
    rw [hnil]
    simp only [List.length_nil, Nat.cast_zero]
    omega
  · rw [selectedPath, if_neg hout]
  · rw [selectedPath, if_pos ⟨by omega, by omega⟩]
    have ht : n.cursor.toNat = i := by omega
    rw [ht, List.getD_eq_getElem _ _ hi, List.get_eq_getElem]

/-- Concrete runs of `selectedPath_safe`: an empty list yields `""`, and a
valid cursor yields that entry's path. -/
theorem selectedPath_safe_witness :
    selectedPath ⟨[], 3⟩ = "" ∧
      selectedPath ⟨[⟨"a", "/a", false, false, 0⟩], 0⟩ = "/a" :=
  ⟨(selectedPath_safe ⟨[], 3⟩).1 rfl,
    by
      have h := (selectedPath_safe ⟨[⟨"a", "/a", false, false, 0⟩], 0⟩).2.2 0
        (by decide) rfl
      simpa using h⟩
